import Mathlib

/-!
# Verification of the proof-of-ownership (PoW) deduplication backend

Shallow embedding of the repository's Python backend:

* `utils.py`    — `get_file_blocks` (block segmenter), `prg` (mask generator)
* `client.py`   — `generate_user_proof` (claimant-side proof engine)
* `server.py`   — `generate_server_proof` (server-side proof engine),
                  `handle_upload_check` (`CheckTag`), `upload_full_file`
                  (`RegisterContent`), `verify_ownership` (`SubmitProof`),
                  and the global dictionary `file_db`.

File contents are modelled as lists of bytes (`List Nat`, each `< 256`).
The cryptographic hash `hashlib.sha256(...).digest()` is an external
library primitive; it is abstracted as a parameter
`H : List Nat → List Nat` throughout, so every theorem holds for the
actual SHA-256 instantiation.  Python strings are Lean `String`s, and
Python's `str.encode()` (UTF-8) is modelled explicitly by `encodeStr`.
-/

/-- Block size constant from `utils.py`: `BLOCK_SIZE = 4096`. -/
def BLOCK_SIZE : Nat := 4096

/-- Embeds `utils.get_file_blocks`: reads the content source and yields it in
sequential chunks of `BLOCK_SIZE` bytes; the loop stops when a read returns
the empty block. -/
def get_file_blocks (content : List Nat) : List (List Nat) :=
  if content = [] then []
  else content.take BLOCK_SIZE :: get_file_blocks (content.drop BLOCK_SIZE)
termination_by content.length
decreasing_by
  simp only [List.length_drop, BLOCK_SIZE]
  rename_i h
  have : content.length ≠ 0 := by simpa using h
  omega

/-- Models the UTF-8 encoding of one Unicode code point, the per-character
behaviour of Python's `str.encode()`. -/
def utf8Bytes (c : Nat) : List Nat :=
  if c < 0x80 then [c]
  else if c < 0x800 then [0xC0 + c / 64, 0x80 + c % 64]
  else if c < 0x10000 then [0xE0 + c / 4096, 0x80 + (c / 64) % 64, 0x80 + c % 64]
  else [0xF0 + c / 262144, 0x80 + (c / 4096) % 64, 0x80 + (c / 64) % 64, 0x80 + c % 64]

/-- Models Python's `str.encode()`: UTF-8 encoding of a string to bytes. -/
def encodeStr (s : String) : List Nat :=
  s.data.flatMap (fun ch => utf8Bytes ch.toNat)

/-- Embeds `utils.prg`: `sha256(seed.encode() || str(index).encode()).digest()`.
Feeding the hasher two chunks in sequence hashes their concatenation. -/
def prg (H : List Nat → List Nat) (seed : String) (index : Nat) : List Nat :=
  H (encodeStr seed ++ encodeStr (Nat.repr index))

/-- The lowercase hexadecimal alphabet `"0123456789abcdef"` used by Python's
`bytes.hex()` / `binascii.hexlify`. -/
def hexAlphabet : List Char := "0123456789abcdef".data

/-- Two lowercase hex digits of one byte, as produced by Python's
`bytes.hex()`. -/
def byteHex (b : Nat) : List Char :=
  [hexAlphabet.getD (b / 16) '0', hexAlphabet.getD (b % 16) '0']

/-- Models Python's `bytes.hex()`: lowercase hexadecimal rendering of a byte
string. -/
def bytesHex (l : List Nat) : String :=
  ⟨l.flatMap byteHex⟩

/-- Models `secrets.token_hex(16)` as a function of the 16 random bytes the
library draws: their lowercase hexadecimal rendering. -/
def token_hex (randomBytes : List Nat) : String :=
  bytesHex randomBytes

/-- Embeds `client.generate_user_proof`: raises (returns `.error`) when fewer
than two blocks are available, otherwise folds the seeded hash chain
`resp = H(H(b0 || prg 1) || H(b1 || prg 2))`, then for each `i` in
`range(2, len(blocks))`: `resp = H(resp || H(blocks[i] || prg(seed, i+1)))`,
and returns `resp.hex()`. -/
def generate_user_proof (H : List Nat → List Nat) (content : List Nat)
    (seed : String) : Except String String :=
  let blocks := get_file_blocks content
  if blocks.length < 2 then
    .error "File is too small for this proof scheme (must have at least two blocks)."
  else
    let para1 := H (blocks.getD 0 [] ++ prg H seed 1)
    let para2 := H (blocks.getD 1 [] ++ prg H seed 2)
    let resp := H (para1 ++ para2)
    let final := (List.range' 2 (blocks.length - 2)).foldl
      (fun resp i => H (resp ++ H (blocks.getD i [] ++ prg H seed (i + 1)))) resp
    .ok (bytesHex final)

/-- Embeds `server.generate_server_proof`: identical chain to the client's,
but returns `None` (here `none`) when fewer than two blocks are available. -/
def generate_server_proof (H : List Nat → List Nat) (content : List Nat)
    (seed : String) : Option String :=
  let blocks := get_file_blocks content
  if blocks.length < 2 then none
  else
    let para1 := H (blocks.getD 0 [] ++ prg H seed 1)
    let para2 := H (blocks.getD 1 [] ++ prg H seed 2)
    let resp := H (para1 ++ para2)
    let final := (List.range' 2 (blocks.length - 2)).foldl
      (fun resp i => H (resp ++ H (blocks.getD i [] ++ prg H seed (i + 1)))) resp
    some (bytesHex final)

/-- The server's in-memory database `file_db`: one Python dictionary holding
both content entries (`tag ↦ filepath`) and pending challenges
(`tag ++ "_seed" ↦ seed`), modelled as a partial map. -/
def FileDb : Type := String → Option String

/-- `file_db[k] = v` (dictionary assignment). -/
def dbSet (db : FileDb) (k v : String) : FileDb :=
  fun q => if q = k then some v else db q

/-- `del file_db[k]` (dictionary deletion). -/
def dbDel (db : FileDb) (k : String) : FileDb :=
  fun q => if q = k then none else db q

/-- `db.get q` / `q in db` lookup. -/
def dbGet (db : FileDb) (q : String) : Option String := db q

/-- Outcome of the `/check-file` endpoint, `server.handle_upload_check`:
HTTP 400 when the tag is missing, `{"status": "new"}`, or
`{"status": "exists", "seed": s}`. -/
inductive CheckResult where
  | badRequest : CheckResult
  | new : CheckResult
  | existing (seed : String) : CheckResult
deriving DecidableEq

/-- Outcome of the `/verify` endpoint, `server.verify_ownership`:
HTTP 404 (`NotFound`), `{"status": "verified"}`, or HTTP 403
(`{"status": "failed"}`). -/
inductive VerifyResult where
  | notFound : VerifyResult
  | verified : VerifyResult
  | failed : VerifyResult
deriving DecidableEq

/-- Embeds `server.handle_upload_check` (the abstract `CheckTag` operation).
`freshSeed` stands for the value of `secrets.token_hex(16)` drawn in this
call.  A missing/empty tag (Python falsy) is rejected; a tag that is a key of
`file_db` gets a seed issued and stored under `tag ++ "_seed"`; otherwise the
server requests a full upload (`new`). -/
def handle_upload_check (db : FileDb) (file_tag : String) (freshSeed : String) :
    FileDb × CheckResult :=
  if file_tag = "" then (db, .badRequest)
  else if (db file_tag).isSome then
    (dbSet db (file_tag ++ "_seed") freshSeed, .existing freshSeed)
  else (db, .new)

/-- Embeds `server.upload_full_file` (the abstract `RegisterContent`
operation), dropping the transport-layer file-part plumbing: on a valid
request the file is saved under `SERVER_STORAGE_PATH` and
`file_db[tag] = filepath` is recorded. -/
def upload_full_file (db : FileDb) (filename : String) (tag : String) :
    FileDb × Bool :=
  if filename = "" ∨ tag = "" then (db, false)
  else (dbSet db tag ("server_storage/" ++ filename), true)

/-- Embeds `server.verify_ownership` (the abstract `SubmitProof` operation).
`fs` is the storage collaborator mapping a filepath to the stored bytes;
`user_proof` is `data.get('proof')` (possibly absent).  The code looks up
`file_db.get(tag)` and `file_db.get(tag + '_seed')`, returns 404 when either
is falsy, otherwise recomputes the server proof, deletes the pending seed,
and compares with Python `==`. -/
def verify_ownership (H : List Nat → List Nat) (fs : String → List Nat)
    (db : FileDb) (tag : String) (user_proof : Option String) :
    FileDb × VerifyResult :=
  let filepath := dbGet db tag
  let seed := dbGet db (tag ++ "_seed")
  match filepath, seed with
  | some fp, some sd =>
    if fp = "" ∨ sd = "" then (db, .notFound)
    else
      let server_proof := generate_server_proof H (fs fp) sd
      let db' := dbDel db (tag ++ "_seed")
      if user_proof = server_proof then (db', .verified) else (db', .failed)
  | some _, none => (db, .notFound)
  | none, _ => (db, .notFound)

theorem get_file_blocks_eq_nil_iff (c : List Nat) :
    get_file_blocks c = [] ↔ c = [] := by
  rw [get_file_blocks]
  split
  · simp_all
  · simp_all

theorem get_file_blocks_flatten (c : List Nat) :
    (get_file_blocks c).flatten = c := by
  induction c using get_file_blocks.induct with
  | case1 => simp [get_file_blocks]
  | case2 c h ih =>
    rw [get_file_blocks, if_neg h]
    simp [ih, List.take_append_drop]

theorem get_file_blocks_mem (c b : List Nat) (hb : b ∈ get_file_blocks c) :
    b ≠ [] ∧ b.length ≤ BLOCK_SIZE := by
  induction c using get_file_blocks.induct with
  | case1 => simp [get_file_blocks] at hb
  | case2 c h ih =>
    rw [get_file_blocks, if_neg h] at hb
    rcases List.mem_cons.mp hb with rfl | hmem
    · constructor
      · simp only [ne_eq, List.take_eq_nil_iff, BLOCK_SIZE]
        simp [h]
      · simp only [List.length_take]
        exact Nat.min_le_left _ _
    · exact ih hmem

theorem get_file_blocks_small (c : List Nat) (h : c.length ≤ BLOCK_SIZE) :
    get_file_blocks c = if c = [] then [] else [c] := by
  rw [get_file_blocks]
  split
  · rfl
  · rw [List.take_of_length_le h, List.drop_eq_nil_of_le h]
    rw [get_file_blocks]
    simp

theorem get_file_blocks_two (c : List Nat) (h1 : BLOCK_SIZE < c.length)
    (h2 : c.length ≤ 2 * BLOCK_SIZE) :
    get_file_blocks c = [c.take BLOCK_SIZE, c.drop BLOCK_SIZE] := by
  have hne : c ≠ [] := by
    intro hc; rw [hc] at h1; simp at h1
  rw [get_file_blocks, if_neg hne]
  have hd : (c.drop BLOCK_SIZE).length ≤ BLOCK_SIZE := by
    simp [List.length_drop]; omega
  have hdne : c.drop BLOCK_SIZE ≠ [] := by
    intro hc
    have := congrArg List.length hc
    simp [List.length_drop] at this
    omega
  rw [get_file_blocks_small _ hd, if_neg hdne]

theorem two_le_blocks_iff (c : List Nat) :
    2 ≤ (get_file_blocks c).length ↔ BLOCK_SIZE < c.length := by
  constructor
  · intro h
    by_contra hlt
    push_neg at hlt
    rw [get_file_blocks_small c hlt] at h
    split at h <;> simp_all
  · intro h
    rw [get_file_blocks, if_neg (by intro hc; rw [hc] at h; simp at h)]
    have hdrop : c.drop BLOCK_SIZE ≠ [] := by
      intro hc
      have := congrArg List.length hc
      simp [List.length_drop] at this
      omega
    have hblocks : get_file_blocks (c.drop BLOCK_SIZE) ≠ [] := fun hc =>
      hdrop ((get_file_blocks_eq_nil_iff _).mp hc)
    have : 1 ≤ (get_file_blocks (c.drop BLOCK_SIZE)).length :=
      Nat.one_le_iff_ne_zero.mpr (by simpa using hblocks)
    simp only [List.length_cons]
    omega

theorem get_file_blocks_full (c : List Nat) (i : Nat)
    (h : i + 1 < (get_file_blocks c).length) :
    ((get_file_blocks c).getD i []).length = BLOCK_SIZE := by
  induction c using get_file_blocks.induct generalizing i with
  | case1 => rw [get_file_blocks] at h; simp at h
  | case2 c hne ih =>
    rw [get_file_blocks, if_neg hne] at h ⊢
    match i with
    | 0 =>
      simp only [List.length_cons] at h
      have hrest : get_file_blocks (c.drop BLOCK_SIZE) ≠ [] := by
        intro hc
        rw [hc] at h
        simp at h
      have hdrop : c.drop BLOCK_SIZE ≠ [] := by
        intro hc
        exact hrest ((get_file_blocks_eq_nil_iff _).mpr hc)
      have hlen : BLOCK_SIZE < c.length := by
        by_contra hle
        push_neg at hle
        exact hdrop (List.drop_eq_nil_of_le hle)
      simp only [List.getD_cons_zero, List.length_take]
      omega
    | i + 1 =>
      simp only [List.getD_cons_succ]
      exact ih i (by simpa using h)

/-- Claim C8: the block segmenter yields a finite ordered sequence of non-empty
blocks in which every block except possibly the last has length exactly
`BLOCK_SIZE = 4096` bytes, the last block has length between `1` and `4096`
bytes, and the in-order concatenation of all blocks equals the original
content bytes. -/
theorem segmenter_blocks_spec (content : List Nat) :
    (∀ b ∈ get_file_blocks content, 1 ≤ b.length ∧ b.length ≤ 4096) ∧
    (∀ i, i + 1 < (get_file_blocks content).length →
      ((get_file_blocks content).getD i []).length = 4096) ∧
    (get_file_blocks content).flatten = content := by
  refine ⟨?_, ?_, get_file_blocks_flatten content⟩
  · intro b hb
    obtain ⟨hne, hle⟩ := get_file_blocks_mem content b hb
    exact ⟨Nat.one_le_iff_ne_zero.mpr (by simpa using hne), hle⟩
  · intro i hi
    exact get_file_blocks_full content i hi

/-- The mask exactly as the specification words it: the hash of the seed's
byte encoding concatenated with the canonical decimal text of the 1-based
index. -/
def spec_mask (H : List Nat → List Nat) (seed : String) (i : Nat) : List Nat :=
  H (encodeStr seed ++ encodeStr (Nat.repr i))

/-- The chained fold exactly as the specification words it, over 1-based
blocks `b_1 .. b_N`: `acc = H(H(b_1 || mask 1) || H(b_2 || mask 2))`, then
for each `i = 3 .. N` in strictly ascending order
`acc = H(acc || H(b_i || mask i))`. -/
def spec_chain (H : List Nat → List Nat) (blocks : List (List Nat))
    (seed : String) : List Nat :=
  let h := fun i => H (blocks.getD (i - 1) [] ++ spec_mask H seed i)
  (List.range' 3 (blocks.length - 2)).foldl (fun acc i => H (acc ++ h i))
    (H (h 1 ++ h 2))

/-- Claim C1: for every ordered block sequence with at least two blocks and
every seed, the proof computation returns the hex encoding of the chained
fold `acc = H(H(b_1 || mask(s,1)) || H(b_2 || mask(s,2)))`, then for each
`i = 3..N` in strictly ascending order `acc = H(acc || H(b_i || mask(s,i)))`,
where `mask(s,i)` hashes the seed's byte encoding concatenated with the
canonical decimal text of the 1-based index. -/
theorem user_proof_is_spec_chain (H : List Nat → List Nat) (content : List Nat)
    (seed : String) (hlen : 2 ≤ (get_file_blocks content).length) :
    generate_user_proof H content seed =
      .ok (bytesHex (spec_chain H (get_file_blocks content) seed)) := by
  have hnot : ¬ (get_file_blocks content).length < 2 := Nat.not_lt.mpr hlen
  simp only [generate_user_proof, spec_chain, if_neg hnot]
  congr 2
  rw [List.range'_eq_map_range 2, List.range'_eq_map_range 3,
    List.foldl_map, List.foldl_map]
  have hf : (fun (resp : List Nat) (y : Nat) =>
        H (resp ++ H ((get_file_blocks content).getD (2 + y) [] ++
          prg H seed (2 + y + 1))))
      = (fun (acc : List Nat) (y : Nat) =>
        H (acc ++ H ((get_file_blocks content).getD (3 + y - 1) [] ++
          spec_mask H seed (3 + y)))) := by
    funext acc y
    have h1 : 3 + y - 1 = 2 + y := by omega
    have h2 : 2 + y + 1 = 3 + y := by omega
    rw [h1, h2]
    rfl
  rw [hf]
  rfl

theorem server_eq_user_toOption (H : List Nat → List Nat) (content : List Nat)
    (seed : String) :
    generate_server_proof H content seed =
      (generate_user_proof H content seed).toOption := by
  simp only [generate_user_proof, generate_server_proof]
  split <;> rfl

theorem user_ok_of_two_le (H : List Nat → List Nat) (content : List Nat)
    (seed : String) (hlen : 2 ≤ (get_file_blocks content).length) :
    ∃ p, generate_user_proof H content seed = .ok p := by
  have hnot : ¬ (get_file_blocks content).length < 2 := Nat.not_lt.mpr hlen
  simp only [generate_user_proof, if_neg hnot]
  exact ⟨_, rfl⟩

/-- Claim C4: a content source yielding fewer than two blocks makes the
claimant-side computation fail with the "too small" error and the
server-side computation produce no proof value, while a source yielding
exactly two blocks succeeds on both sides. -/
theorem too_small_content (H : List Nat → List Nat) (content : List Nat)
    (seed : String) :
    ((get_file_blocks content).length < 2 →
      generate_user_proof H content seed =
        .error "File is too small for this proof scheme (must have at least two blocks)." ∧
      generate_server_proof H content seed = none) ∧
    ((get_file_blocks content).length = 2 →
      ∃ p, generate_user_proof H content seed = .ok p ∧
        generate_server_proof H content seed = some p) := by
  constructor
  · intro h
    constructor
    · simp [generate_user_proof, if_pos h]
    · simp [generate_server_proof, if_pos h]
  · intro h
    obtain ⟨p, hp⟩ := user_ok_of_two_le H content seed (by omega)
    exact ⟨p, hp, by rw [server_eq_user_toOption, hp]; rfl⟩

/-- Claim C5: on any content source with at least two blocks, the
claimant-side and server-side proof engines return identical hex digests. -/
theorem user_server_agree (H : List Nat → List Nat) (content : List Nat)
    (seed : String) (hlen : 2 ≤ (get_file_blocks content).length) :
    ∃ p, generate_user_proof H content seed = .ok p ∧
      generate_server_proof H content seed = some p := by
  obtain ⟨p, hp⟩ := user_ok_of_two_le H content seed hlen
  exact ⟨p, hp, by rw [server_eq_user_toOption, hp]; rfl⟩

theorem get_file_blocks_nil : get_file_blocks [] = [] := by
  rw [get_file_blocks]
  simp

theorem tag_ne_seed_key (tag : String) : tag ≠ tag ++ "_seed" := by
  intro h
  have h2 := congrArg String.length h
  rw [String.length_append] at h2
  have h5 : "_seed".length = 5 := rfl
  omega

/-- Claim C10: when verification returns NotFound because no stored content
path or no pending seed exists for the tag, the server's state is left
completely unchanged. -/
theorem verify_notfound_unchanged (H : List Nat → List Nat)
    (fs : String → List Nat) (db : FileDb) (tag : String)
    (p : Option String)
    (h : db tag = none ∨ db (tag ++ "_seed") = none) :
    verify_ownership H fs db tag p = (db, .notFound) := by
  rcases h with h | h
  · simp only [verify_ownership, dbGet, h]
  · simp only [verify_ownership, dbGet, h]
    cases db tag <;> rfl

/-- Claim C2: a verification attempt whose outcome is Verified or Failed
consumes the pending challenge: afterwards the pending entry for the tag is
gone, and any second submission for that tag — with the same or any proof —
returns NotFound and leaves the state unchanged. -/
theorem single_use_challenge (H : List Nat → List Nat)
    (fs : String → List Nat) (db : FileDb) (tag : String) (p : Option String)
    (h : (verify_ownership H fs db tag p).2 ≠ .notFound) :
    ((verify_ownership H fs db tag p).1 (tag ++ "_seed") = none) ∧
    (∀ p', verify_ownership H fs (verify_ownership H fs db tag p).1 tag p' =
      ((verify_ownership H fs db tag p).1, .notFound)) := by
  cases hfp : db tag with
  | none =>
    exact absurd (congrArg Prod.snd (verify_notfound_unchanged H fs db tag p
      (Or.inl hfp))) h
  | some fp =>
    cases hsd : db (tag ++ "_seed") with
    | none =>
      exact absurd (congrArg Prod.snd (verify_notfound_unchanged H fs db tag p
        (Or.inr hsd))) h
    | some sd =>
      simp only [verify_ownership, dbGet, hfp, hsd] at h ⊢
      by_cases hfalsy : fp = "" ∨ sd = ""
      · rw [if_pos hfalsy] at h
        exact absurd rfl h
      · rw [if_neg hfalsy] at h ⊢
        have hdel : ∀ r : VerifyResult,
            ((dbDel db (tag ++ "_seed"), r).1 (tag ++ "_seed") = none) ∧
            (∀ p', verify_ownership H fs (dbDel db (tag ++ "_seed"), r).1 tag p' =
              ((dbDel db (tag ++ "_seed"), r).1, .notFound)) := by
          intro r
          constructor
          · simp [dbDel]
          · intro p'
            apply verify_notfound_unchanged
            right
            simp [dbDel]
        by_cases hcmp : p = generate_server_proof H (fs fp) sd
        · rw [if_pos hcmp]
          exact hdel .verified
        · rw [if_neg hcmp]
          exact hdel .failed

/-- Claim C3 (amended): verification returns NotFound when the tag has no
stored content entry or no pending challenge (or a falsy one); when both a
non-empty stored path and a non-empty pending seed exist, it recomputes the
server proof from the stored content and the pending seed, consumes the
challenge, and returns Verified exactly when the claimant's proof equals
the recomputed proof by exact equality, Failed otherwise. -/
theorem verify_characterization (H : List Nat → List Nat)
    (fs : String → List Nat) (db : FileDb) (tag : String)
    (p : Option String) (fp sd : String)
    (hfp : db tag = some fp) (hfp' : fp ≠ "")
    (hsd : db (tag ++ "_seed") = some sd) (hsd' : sd ≠ "") :
    (verify_ownership H fs db tag p =
      (dbDel db (tag ++ "_seed"),
        if p = generate_server_proof H (fs fp) sd
        then .verified else .failed)) ∧
    (∀ db' : FileDb, (db' tag = none ∨ db' (tag ++ "_seed") = none) →
      verify_ownership H fs db' tag p = (db', .notFound)) := by
  constructor
  · simp only [verify_ownership, dbGet, hfp, hsd]
    rw [if_neg (by push_neg; exact ⟨hfp', hsd'⟩)]
    split <;> rfl
  · intro db' h
    exact verify_notfound_unchanged H fs db' tag p h

/-- The server state reached by the operation sequence: register tag `"a"`,
issue a challenge for `"a"` (seed `"s1"`), issue a challenge for tag
`"a_seed"` — a tag never registered, yet found in `file_db` because it
collides with the pending-seed key of `"a"` — (seed `"s2"`), then verify
tag `"a"`.  The hash and the storage collaborator are instantiated with
trivial concrete functions. -/
def collisionDb : FileDb :=
  (verify_ownership (fun _ => []) (fun _ => [])
    ((handle_upload_check
      ((handle_upload_check
        ((upload_full_file (fun _ => none) "f.txt" "a").1) "a" "s1").1)
      "a_seed" "s2").1)
    "a" (some "x")).1

/-- Counterexample to claim C3 as stated: in the reachable state
`collisionDb`, a pending challenge for tag `"a_seed"` exists (its pending
key `"a_seed_seed"` holds seed `"s2"`), yet `verify_ownership` on
`"a_seed"` returns NotFound instead of Verified or Failed, because the
content lookup for `"a_seed"` — whose entry was consumed as the pending
seed of `"a"` — fails first. -/
theorem verify_notfound_despite_pending :
    collisionDb ("a_seed" ++ "_seed") = some "s2" ∧
    (verify_ownership (fun _ => []) (fun _ => []) collisionDb "a_seed"
      (some "x")).2 = .notFound := by
  constructor
  · simp [collisionDb, verify_ownership, handle_upload_check, upload_full_file,
      dbSet, dbDel, dbGet, generate_server_proof, get_file_blocks_nil]
  · simp [collisionDb, verify_ownership, handle_upload_check, upload_full_file,
      dbSet, dbDel, dbGet, generate_server_proof, get_file_blocks_nil]

/-- Claim C6: the pending-challenge store holds at most one seed per tag —
it is a map keyed by `tag ++ "_seed"` — and issuing a second challenge for a
tag overwrites the first: after two issuances the pending entry holds the
most recently issued seed, the earlier seed is unreachable, and a subsequent
consume reads the latest seed. -/
theorem last_issued_wins (db : FileDb) (t fp s1 s2 : String)
    (ht : t ≠ "") (hfp : db t = some fp) :
    (handle_upload_check db t s1).2 = .existing s1 ∧
    (handle_upload_check (handle_upload_check db t s1).1 t s2).2 =
      .existing s2 ∧
    (handle_upload_check (handle_upload_check db t s1).1 t s2).1
      (t ++ "_seed") = some s2 ∧
    (s1 ≠ s2 →
      (handle_upload_check (handle_upload_check db t s1).1 t s2).1
        (t ++ "_seed") ≠ some s1) := by
  have hissue1 : (db t).isSome := by rw [hfp]; rfl
  have hdb1 : (handle_upload_check db t s1).1 =
      dbSet db (t ++ "_seed") s1 := by
    simp only [handle_upload_check, if_neg ht, hissue1, if_pos]
  have hdb1t : (handle_upload_check db t s1).1 t = some fp := by
    rw [hdb1]
    simp only [dbSet, if_neg (tag_ne_seed_key t), hfp]
  have hissue2 : ((handle_upload_check db t s1).1 t).isSome := by
    rw [hdb1t]; rfl
  have hs2 : (dbSet db (t ++ "_seed") s1 t).isSome := by
    simp only [dbSet, if_neg (tag_ne_seed_key t), hfp]
    rfl
  refine ⟨?_, ?_, ?_, ?_⟩
  · simp only [handle_upload_check, if_neg ht, hissue1, if_pos]
  · rw [hdb1]
    simp only [handle_upload_check, if_neg ht, hs2, if_pos]
  · rw [hdb1]
    simp only [handle_upload_check, if_neg ht, hs2, if_pos]
    simp [dbSet]
  · intro hne
    rw [hdb1]
    simp only [handle_upload_check, if_neg ht, hs2, if_pos]
    simp only [dbSet, if_pos rfl]
    intro hcontra
    exact hne (Option.some.inj hcontra).symm

/-- The server state reached by: register tag `"a"`, then issue a challenge
for `"a"` (seed `"s1"`), which stores the pending seed under the key
`"a_seed"` of the same dictionary that holds content entries. -/
def seedKeyDb : FileDb :=
  (handle_upload_check
    ((upload_full_file (fun _ => none) "f.txt" "a").1) "a" "s1").1

/-- Counterexample to claim C7 as stated: in the reachable state `seedKeyDb`
the tag `"a_seed"` has never been registered via the upload endpoint — only
`"a"` was — yet `CheckTag("a_seed")` returns `{Exists, seed}` rather than
`{New}`, because the dedup membership test consults the combined dictionary,
in which `"a_seed"` is the pending-seed key of tag `"a"`. -/
theorem checktag_exists_for_unregistered_tag :
    (handle_upload_check seedKeyDb "a_seed" "s2").2 = .existing "s2" ∧
    (handle_upload_check seedKeyDb "a_seed" "s2").2 ≠ .new := by
  constructor
  · simp [seedKeyDb, handle_upload_check, upload_full_file, dbSet, dbGet]
  · simp [seedKeyDb, handle_upload_check, upload_full_file, dbSet, dbGet]

/-- Claim C7 (amended): for a non-empty tag, `CheckTag` returns `{New}`
exactly when the tag is not a key of the server's combined dictionary —
which holds both registered-content entries and pending-seed entries under
`tag ++ "_seed"` — leaving the state unchanged; on a tag that is a key it
returns `{Exists, seed}` with the freshly generated seed stored as the
pending challenge for that tag. -/
theorem checktag_characterization (db : FileDb) (tag seed : String)
    (ht : tag ≠ "") :
    ((handle_upload_check db tag seed).2 = .new ↔ db tag = none) ∧
    ((handle_upload_check db tag seed).2 = .new →
      (handle_upload_check db tag seed).1 = db) ∧
    (∀ fp, db tag = some fp →
      (handle_upload_check db tag seed).2 = .existing seed ∧
      (handle_upload_check db tag seed).1 (tag ++ "_seed") = some seed ∧
      (handle_upload_check db tag seed).1 tag = some fp) := by
  refine ⟨?_, ?_, ?_⟩
  · cases hdb : db tag with
    | none =>
      simp only [handle_upload_check, if_neg ht, hdb, Option.isSome_none,
        Bool.false_eq_true, if_neg]
      simp
    | some fp =>
      have : (db tag).isSome := by rw [hdb]; rfl
      simp only [handle_upload_check, if_neg ht, this, if_pos]
      simp
  · intro hnew
    cases hdb : db tag with
    | none =>
      simp only [handle_upload_check, if_neg ht, hdb, Option.isSome_none,
        Bool.false_eq_true, if_neg]
      simp
    | some fp =>
      have hs : (db tag).isSome := by rw [hdb]; rfl
      simp only [handle_upload_check, if_neg ht, hs, if_pos] at hnew
      simp at hnew
  · intro fp hdb
    have hs : (db tag).isSome := by rw [hdb]; rfl
    refine ⟨?_, ?_, ?_⟩
    · simp only [handle_upload_check, if_neg ht, hs, if_pos]
    · simp only [handle_upload_check, if_neg ht, hs, if_pos]
      simp [dbSet]
    · simp only [handle_upload_check, if_neg ht, hs, if_pos]
      simp [dbSet, if_neg (tag_ne_seed_key tag), hdb]

theorem hexAlphabet_getD_mem (k : Nat) :
    hexAlphabet.getD k '0' ∈ hexAlphabet := by
  by_cases hk : k < hexAlphabet.length
  · rw [List.getD_eq_getElem hexAlphabet '0' hk]
    exact List.getElem_mem hk
  · rw [List.getD_eq_default hexAlphabet '0' (by omega)]
    decide

theorem hexAlphabet_ascii (c : Char) (hc : c ∈ hexAlphabet) : c.toNat < 128 := by
  have h : ∀ x ∈ hexAlphabet, x.toNat < 128 := by decide
  exact h c hc

theorem token_hex_mem (bs : List Nat) (c : Char)
    (hc : c ∈ (token_hex bs).data) : c ∈ hexAlphabet := by
  simp only [token_hex, bytesHex, List.mem_flatMap] at hc
  obtain ⟨b, _, hb⟩ := hc
  simp only [byteHex, List.mem_cons, List.mem_singleton] at hb
  rcases hb with rfl | rfl | h
  · exact hexAlphabet_getD_mem _
  · exact hexAlphabet_getD_mem _
  · simp at h

theorem token_hex_length (bs : List Nat) :
    (token_hex bs).length = 2 * bs.length := by
  simp only [token_hex, bytesHex, String.length]
  induction bs with
  | nil => rfl
  | cons b bs ih =>
    simp only [List.flatMap_cons, List.length_append, ih, byteHex]
    simp
    omega

theorem encode_ascii (l : List Char) (h : ∀ c ∈ l, c.toNat < 128) :
    (String.mk l).data.flatMap (fun ch => utf8Bytes ch.toNat) =
      l.map Char.toNat := by
  induction l with
  | nil => rfl
  | cons c cs ih =>
    simp only [List.flatMap_cons, List.map_cons]
    rw [show utf8Bytes c.toNat = [c.toNat] from
      by rw [utf8Bytes, if_pos (h c (List.mem_cons_self c cs))]]
    simp only [List.cons_append, List.nil_append, List.cons.injEq, true_and]
    exact ih (fun x hx => h x (List.mem_cons_of_mem c hx))

/-- Claim C9: a seed issued on a dedup hit is `secrets.token_hex(16)` over
16 random bytes: a 32-character string whose characters all come from the
lowercase hexadecimal alphabet, and the mask generator consumes exactly the
ASCII byte encoding of that hex string — its UTF-8 encoding coincides with
the list of the characters' code points, each below 128. -/
theorem issued_seed_format (bs : List Nat) (hlen : bs.length = 16) :
    (token_hex bs).length = 32 ∧
    (∀ c ∈ (token_hex bs).data, c ∈ hexAlphabet ∧ c.toNat < 128) ∧
    encodeStr (token_hex bs) = (token_hex bs).data.map Char.toNat ∧
    (∀ H : List Nat → List Nat, ∀ i : Nat, prg H (token_hex bs) i =
      H ((token_hex bs).data.map Char.toNat ++ encodeStr (Nat.repr i))) := by
  have hmem : ∀ c ∈ (token_hex bs).data, c ∈ hexAlphabet ∧ c.toNat < 128 :=
    fun c hc => ⟨token_hex_mem bs c hc,
      hexAlphabet_ascii c (token_hex_mem bs c hc)⟩
  have henc : encodeStr (token_hex bs) = (token_hex bs).data.map Char.toNat := by
    simp only [encodeStr]
    exact encode_ascii (token_hex bs).data (fun c hc => (hmem c hc).2)
  refine ⟨?_, hmem, henc, ?_⟩
  · rw [token_hex_length, hlen]
  · intro H i
    rw [prg, henc]

/-- A small concrete server state: content entry for tag `"t"` and a pending
seed under `"t_seed"`. -/
def sampleDb : FileDb := fun k =>
  if k = "t" then some "f" else if k = "t_seed" then some "s" else none

theorem user_proof_is_spec_chain_witness :
    generate_user_proof (fun _ => []) (List.replicate 8192 0) "s" =
      .ok (bytesHex (spec_chain (fun _ => [])
        (get_file_blocks (List.replicate 8192 0)) "s")) :=
  user_proof_is_spec_chain (fun _ => []) (List.replicate 8192 0) "s"
    (by
      rw [two_le_blocks_iff]
      simp only [List.length_replicate, BLOCK_SIZE]
      norm_num)

theorem single_use_challenge_witness :
    ((verify_ownership (fun _ => []) (fun _ => []) sampleDb "t"
      (some "x")).1 ("t" ++ "_seed") = none) ∧
    (verify_ownership (fun _ => [])
      (fun _ => []) (verify_ownership (fun _ => []) (fun _ => []) sampleDb "t"
        (some "x")).1 "t" (some "y") =
      ((verify_ownership (fun _ => []) (fun _ => []) sampleDb "t"
        (some "x")).1, .notFound)) := by
  have h := single_use_challenge (fun _ => []) (fun _ => []) sampleDb "t"
    (some "x")
    (by simp [verify_ownership, dbGet, dbDel, sampleDb,
      generate_server_proof, get_file_blocks_nil])
  exact ⟨h.1, h.2 (some "y")⟩

theorem verify_characterization_witness :
    (verify_ownership (fun _ => []) (fun _ => []) sampleDb "t" (some "x") =
      (dbDel sampleDb ("t" ++ "_seed"),
        if some "x" = generate_server_proof (fun _ => []) ((fun _ => []) "f") "s"
        then .verified else .failed)) ∧
    (verify_ownership (fun _ => []) (fun _ => []) (fun _ => none) "t"
      (some "x") = ((fun _ => none), .notFound)) := by
  have h := verify_characterization (fun _ => []) (fun _ => []) sampleDb "t"
    (some "x") "f" "s" rfl (by decide) rfl (by decide)
  exact ⟨h.1, h.2 (fun _ => none) (Or.inl rfl)⟩

theorem too_small_content_witness :
    (generate_user_proof (fun _ => []) [0] "s" =
      .error "File is too small for this proof scheme (must have at least two blocks)." ∧
     generate_server_proof (fun _ => []) [0] "s" = none) ∧
    (∃ p, generate_user_proof (fun _ => []) (List.replicate 8192 0) "s" =
        .ok p ∧
      generate_server_proof (fun _ => []) (List.replicate 8192 0) "s" =
        some p) := by
  constructor
  · exact (too_small_content (fun _ => []) [0] "s").1 (by
      rw [get_file_blocks_small _ (by simp [BLOCK_SIZE])]
      simp)
  · exact (too_small_content (fun _ => []) (List.replicate 8192 0) "s").2 (by
      rw [get_file_blocks_two _
        (by simp only [List.length_replicate, BLOCK_SIZE]; omega)
        (by simp only [List.length_replicate, BLOCK_SIZE]; omega)]
      rfl)

theorem user_server_agree_witness :
    ∃ p, generate_user_proof (fun _ => []) (List.replicate 8192 0) "s" =
        .ok p ∧
      generate_server_proof (fun _ => []) (List.replicate 8192 0) "s" =
        some p :=
  user_server_agree (fun _ => []) (List.replicate 8192 0) "s"
    (by
      rw [two_le_blocks_iff]
      simp only [List.length_replicate, BLOCK_SIZE]
      norm_num)

theorem last_issued_wins_witness :
    (handle_upload_check sampleDb "t" "s1").2 = .existing "s1" ∧
    (handle_upload_check (handle_upload_check sampleDb "t" "s1").1 "t"
      "s2").2 = .existing "s2" ∧
    (handle_upload_check (handle_upload_check sampleDb "t" "s1").1 "t"
      "s2").1 ("t" ++ "_seed") = some "s2" ∧
    (handle_upload_check (handle_upload_check sampleDb "t" "s1").1 "t"
      "s2").1 ("t" ++ "_seed") ≠ some "s1" := by
  have h := last_issued_wins sampleDb "t" "f" "s1" "s2" (by decide) rfl
  exact ⟨h.1, h.2.1, h.2.2.1, h.2.2.2 (by decide)⟩

theorem checktag_characterization_witness :
    (handle_upload_check sampleDb "t" "s9").2 = .existing "s9" ∧
    (handle_upload_check sampleDb "t" "s9").1 ("t" ++ "_seed") = some "s9" ∧
    (handle_upload_check sampleDb "u" "s9").2 = .new := by
  have h1 := (checktag_characterization sampleDb "t" "s9" (by decide)).2.2 "f" rfl
  have h2 := (checktag_characterization sampleDb "u" "s9" (by decide)).1
  exact ⟨h1.1, h1.2.1, h2.mpr rfl⟩

theorem segmenter_blocks_spec_witness :
    ((get_file_blocks (List.replicate 5000 7)).getD 0 []).length = 4096 ∧
    (get_file_blocks (List.replicate 5000 7)).flatten =
      List.replicate 5000 7 := by
  have hblocks : get_file_blocks (List.replicate 5000 7) =
      [(List.replicate 5000 7).take BLOCK_SIZE,
       (List.replicate 5000 7).drop BLOCK_SIZE] :=
    get_file_blocks_two _
      (by simp only [List.length_replicate, BLOCK_SIZE]; omega)
      (by simp only [List.length_replicate, BLOCK_SIZE]; omega)
  refine ⟨(segmenter_blocks_spec (List.replicate 5000 7)).2.1 0 ?_,
    (segmenter_blocks_spec (List.replicate 5000 7)).2.2⟩
  rw [hblocks]
  simp only [List.length_cons, List.length_nil]
  omega

theorem issued_seed_format_witness :
    (token_hex (List.replicate 16 0)).length = 32 ∧
    encodeStr (token_hex (List.replicate 16 0)) =
      (token_hex (List.replicate 16 0)).data.map Char.toNat := by
  have h := issued_seed_format (List.replicate 16 0) (by simp)
  exact ⟨h.1, h.2.2.1⟩

theorem verify_notfound_unchanged_witness :
    verify_ownership (fun _ => []) (fun _ => []) (fun _ => none) "t"
      (some "x") = ((fun _ => none), .notFound) :=
  verify_notfound_unchanged (fun _ => []) (fun _ => []) (fun _ => none) "t"
    (some "x") (Or.inl rfl)
